import Mathlib

/-!
Verification of the FeedDirectory component (src/src/App.tsx).

The component fetches a CSV resource, parses it into rows, sanitizes the
rows into `Feed` records, and exposes a live case-insensitive text filter
plus per-entry helper URLs (subscribe link, favicon link).  The
definitions below are a shallow embedding of that logic: CSV rows are
key/value records with possibly-missing string fields, JavaScript string
truthiness (`x || d`) becomes `jsOr`, `Array.prototype.map` with the
index argument becomes `mapIdxFrom`, and the browser builtins
(`encodeURIComponent`, `new URL(...)`) are modelled explicitly — the URL
parser as an abstract parameter returning `Option` (a thrown TypeError is
`none`), `encodeURIComponent` by its ECMA-262 semantics.
-/

namespace Feeds

/-- One row produced by Papa.parse with `header: true`: a record of string
columns; a column absent from the CSV is `none`.  Only the three columns
the component reads are modelled. -/
structure Row where
  feed_title : Option String
  feed_url : Option String
  website_url : Option String
deriving Repr, DecidableEq

/-- The `Feed` interface from App.tsx. -/
structure Feed where
  id : String
  feed_title : String
  feed_url : String
  website_url : String
  favicon_url : String
deriving Repr, DecidableEq

/-- JavaScript `v || d` on an optional string field: a missing value and
the empty string are falsy, any other string is itself. -/
def jsOr : Option String → String → String
  | none, d => d
  | some s, d => if s = "" then d else s

/-- Simple (context-free) Unicode lowercase mapping, modelled for the
ASCII and Greek letters; other code points are kept unchanged. -/
def simpleLower (c : Char) : Char :=
  let n := c.toNat
  if 65 ≤ n ∧ n ≤ 90 then Char.ofNat (n + 32)
  else if 913 ≤ n ∧ n ≤ 937 ∧ n ≠ 930 then Char.ofNat (n + 32)
  else if n = 902 then Char.ofNat 940
  else if 904 ≤ n ∧ n ≤ 906 then Char.ofNat (n + 37)
  else if n = 908 then Char.ofNat 972
  else if n = 910 ∨ n = 911 then Char.ofNat (n + 63)
  else if n = 938 ∨ n = 939 then Char.ofNat (n + 32)
  else c

/-- Is the character cased, for the Final_Sigma context test
(ASCII and Greek letters in the modelled repertoire)? -/
def casedChar (c : Char) : Bool :=
  let n := c.toNat
  (65 ≤ n && n ≤ 90) || (97 ≤ n && n ≤ 122) ||
  (902 ≤ n && n ≤ 974 && n != 903 && n != 907 && n != 909 && n != 930)

/-- Is the character case-ignorable for the Final_Sigma context test
(apostrophes, middle dots, combining marks)? -/
def caseIgnorable (c : Char) : Bool :=
  let n := c.toNat
  n = 39 || n = 700 || n = 903 || n = 183 || n = 8217 || (768 ≤ n && n ≤ 879)

/-- The Final_Sigma context of Unicode SpecialCasing: the capital sigma
is preceded (skipping case-ignorable characters) by a cased character
and not followed (again skipping case-ignorables) by one.  `prevRev` is
the list of preceding characters, nearest first. -/
def isFinalSigma (prevRev rest : List Char) : Bool :=
  (match prevRev.dropWhile caseIgnorable with
   | p :: _ => casedChar p
   | [] => false) &&
  !(match rest.dropWhile caseIgnorable with
    | n :: _ => casedChar n
    | [] => false)

/-- Context-sensitive lowering of a character list: the capital sigma
(U+03A3) becomes the final form ς (U+03C2) in Final_Sigma position and
σ (U+03C3) otherwise; every other character is lowered context-free. -/
def jsLowerAux : List Char → List Char → List Char
  | _, [] => []
  | prevRev, c :: rest =>
    (if c == Char.ofNat 931 && isFinalSigma prevRev rest
     then Char.ofNat 962
     else simpleLower c) :: jsLowerAux (c :: prevRev) rest

/-- JavaScript `String.prototype.toLowerCase`, modelled from ECMA-262:
the Unicode Default Case Conversion, here the simple per-character
mappings for the ASCII and Greek repertoire together with the mandated
context-sensitive Final_Sigma rule of SpecialCasing.txt (one-to-many
mappings of characters outside this repertoire are not modelled). -/
def jsToLower (s : String) : String :=
  ⟨jsLowerAux [] s.data⟩

/-- Does the text begin with the pattern?  (Helper for `containsSeq`.) -/
def startsSeq : List Char → List Char → Bool
  | [], _ => true
  | _ :: _, [] => false
  | p :: ps, t :: ts => p == t && startsSeq ps ts

/-- Does the pattern occur contiguously somewhere in the text?
Models JavaScript `String.prototype.includes` on the character lists. -/
def containsSeq (pat : List Char) : List Char → Bool
  | [] => startsSeq pat []
  | t :: ts => startsSeq pat (t :: ts) || containsSeq pat ts

/-- JavaScript `s.includes(search)`. -/
def jsIncludes (s search : String) : Bool :=
  containsSeq search.data s.data

/-- The pattern occurs contiguously in the text (propositional form). -/
def SeqContains (pat text : List Char) : Prop :=
  ∃ pre suf, pre ++ pat ++ suf = text

/-- The argument App.tsx hands to `new URL(...)`: the website URL itself
when it starts with "http", otherwise prefixed with "https://". -/
def urlCandidate (websiteUrl : String) : String :=
  if websiteUrl.startsWith "http" then websiteUrl else "https://" ++ websiteUrl

/-- `getFaviconUrl` from App.tsx.  `newURLHostname` models the browser
builtin `new URL(s).hostname`; `none` models the constructor throwing.
`base` models `import.meta.env.BASE_URL`.  The try/catch means the
function itself always returns a string and never throws. -/
def getFaviconUrl (newURLHostname : String → Option String) (base : String)
    (websiteUrl : String) : String :=
  let attempt : Option String :=
    if websiteUrl ≠ "" then
      (newURLHostname (urlCandidate websiteUrl)).map
        (fun host => "https://www.google.com/s2/favicons?domain=" ++ host)
    else
      none
  attempt.getD (base ++ "default-favicon.png")

/-- The per-row mapping inside `loadFeeds`' complete handler: defaults for
missing title and URL, positional fallback id, derived favicon URL. -/
def sanitizeRow (newURLHostname : String → Option String) (base : String)
    (index : Nat) (feed : Row) : Feed :=
  let websiteUrl := jsOr feed.website_url ""
  { id := jsOr feed.feed_url ("feed-" ++ toString index)
    feed_title := jsOr feed.feed_title "Untitled Feed"
    feed_url := jsOr feed.feed_url ""
    website_url := websiteUrl
    favicon_url := getFaviconUrl newURLHostname base websiteUrl }

/-- `Array.prototype.map` when the callback also receives the element
index, with `k` the index of the first element. -/
def mapIdxFrom (f : Nat → Row → Feed) : Nat → List Row → List Feed
  | _, [] => []
  | k, r :: rs => f k r :: mapIdxFrom f (k + 1) rs

/-- The sanitization pipeline of `loadFeeds`: map each parsed row to a
`Feed` (with its index), then drop every feed whose `feed_url` is falsy. -/
def sanitizedFeeds (newURLHostname : String → Option String) (base : String)
    (rows : List Row) : List Feed :=
  (mapIdxFrom (sanitizeRow newURLHostname base) 0 rows).filter
    (fun feed => feed.feed_url != "")

/-- The filter predicate of `filteredFeeds` in App.tsx: the title must be
truthy (the `typeof` check is vacuous for a `Feed`, whose title is always
a string) and the lowercased title must contain the lowercased search
term. -/
def feedMatches (searchTerm : String) (feed : Feed) : Bool :=
  (feed.feed_title != "") && jsIncludes (jsToLower feed.feed_title) (jsToLower searchTerm)

/-- `filteredFeeds` from App.tsx: the live search filter over the loaded
feeds. -/
def filteredFeeds (feeds : List Feed) (searchTerm : String) : List Feed :=
  feeds.filter (feedMatches searchTerm)

/-- The filter predicate as the spec words it: the title contains the
search string case-insensitively (no truthiness side condition). -/
def specMatches (searchTerm : String) (feed : Feed) : Bool :=
  jsIncludes (jsToLower feed.feed_title) (jsToLower searchTerm)

/-- Hexadecimal digit (uppercase), for percent-encoding. -/
def hexDigit (n : Nat) : Char :=
  if n < 10 then Char.ofNat (48 + n) else Char.ofNat (55 + n)

/-- UTF-8 encoding of one code point, as byte values. -/
def utf8Bytes (c : Char) : List Nat :=
  let n := c.toNat
  if n < 128 then [n]
  else if n < 2048 then [192 + n / 64, 128 + n % 64]
  else if n < 65536 then [224 + n / 4096, 128 + (n / 64) % 64, 128 + n % 64]
  else [240 + n / 262144, 128 + (n / 4096) % 64, 128 + (n / 64) % 64, 128 + n % 64]

/-- Characters `encodeURIComponent` leaves unescaped (ECMA-262):
ASCII letters, digits, and - _ . ! ~ * ' ( ). -/
def uriUnescaped (c : Char) : Bool :=
  (65 ≤ c.toNat && c.toNat ≤ 90) || (97 ≤ c.toNat && c.toNat ≤ 122) ||
  (48 ≤ c.toNat && c.toNat ≤ 57) ||
  c ∈ ['-', '_', '.', '!', '~', '*', Char.ofNat 39, '(', ')']

/-- Percent-encoding of one character: kept verbatim when unescaped,
otherwise each UTF-8 byte becomes `%HH`. -/
def percentEncodeChar (c : Char) : List Char :=
  if uriUnescaped c then [c]
  else (utf8Bytes c).flatMap (fun b => ['%', hexDigit (b / 16), hexDigit (b % 16)])

/-- The browser builtin `encodeURIComponent`, modelled from its ECMA-262
semantics. -/
def encodeURIComponent (s : String) : String :=
  ⟨s.data.flatMap percentEncodeChar⟩

/-- `getInoreaderUrl` from App.tsx (`String(feedUrl)` is the identity on
a string argument). -/
def getInoreaderUrl (feedUrl : String) : String :=
  "https://www.inoreader.com/search/feeds/" ++ encodeURIComponent feedUrl

/-- Outcome of `fetch` for the CSV resource: a network-level rejection
(the promise rejects with an Error carrying `msg`), or a response with
its `ok` flag, status code and body text. -/
inductive FetchResult where
  | networkError (msg : String)
  | response (ok : Bool) (status : Nat) (body : String)
deriving Repr

/-- Outcome of `Papa.parse` on the body text: the complete callback with
the parsed rows, or the error callback with a message. -/
inductive ParseResult where
  | complete (rows : List Row)
  | failure (msg : String)

/-- The component state touched by `loadFeeds`: the feeds collection and
the loading/error flags. -/
structure ComponentState where
  feeds : List Feed
  loading : Bool
  error : Option String
deriving Repr, DecidableEq

/-- State before `loadFeeds` runs: empty collection, loading, no error. -/
def initialState : ComponentState :=
  { feeds := [], loading := true, error := none }

/-- `loadFeeds` from App.tsx as a state transformer on the initial state:
a rejected fetch or a non-ok response is caught and publishes the
catch-block message; a parse failure publishes the error-callback
message; only a successful parse publishes the sanitized feeds. -/
def loadFeeds (newURLHostname : String → Option String) (base : String)
    (fetchResult : FetchResult) (parseCsv : String → ParseResult) : ComponentState :=
  match fetchResult with
  | .networkError msg =>
      { initialState with
        loading := false
        error := some ("Error loading or processing feeds: " ++ msg ++
          ". Ensure 'feeds_deduped.csv' is accessible.") }
  | .response ok status body =>
      if ok then
        match parseCsv body with
        | .complete rows =>
            { initialState with
              feeds := sanitizedFeeds newURLHostname base rows
              loading := false }
        | .failure msg =>
            { initialState with
              loading := false
              error := some ("Error parsing CSV: " ++ msg) }
      else
        { initialState with
          loading := false
          error := some ("Error loading or processing feeds: HTTP error! status: " ++
            toString status ++ ". Ensure 'feeds_deduped.csv' is accessible.") }

/-! ### Helper lemmas -/

theorem startsSeq_iff (p t : List Char) :
    startsSeq p t = true ↔ ∃ r, p ++ r = t := by
  induction p generalizing t with
  | nil => simp [startsSeq]
  | cons c cs ih =>
    cases t with
    | nil => simp [startsSeq]
    | cons d ds =>
      simp only [startsSeq, Bool.and_eq_true, beq_iff_eq, ih]
      constructor
      · rintro ⟨rfl, r, rfl⟩
        exact ⟨r, rfl⟩
      · rintro ⟨r, h⟩
        cases h
        exact ⟨rfl, r, rfl⟩

theorem containsSeq_iff (p t : List Char) :
    containsSeq p t = true ↔ SeqContains p t := by
  induction t with
  | nil =>
    simp only [containsSeq, startsSeq_iff, SeqContains]
    constructor
    · rintro ⟨r, h⟩
      rcases List.append_eq_nil.mp h with ⟨rfl, rfl⟩
      exact ⟨[], [], rfl⟩
    · rintro ⟨pre, suf, h⟩
      rcases List.append_eq_nil.mp h with ⟨h1, rfl⟩
      rcases List.append_eq_nil.mp h1 with ⟨rfl, rfl⟩
      exact ⟨[], rfl⟩
  | cons c cs ih =>
    simp only [containsSeq, Bool.or_eq_true, startsSeq_iff, ih, SeqContains]
    constructor
    · rintro (⟨r, h⟩ | ⟨pre, suf, h⟩)
      · exact ⟨[], r, h⟩
      · exact ⟨c :: pre, suf, by simp [h]⟩
    · rintro ⟨pre, suf, h⟩
      cases pre with
      | nil => exact Or.inl ⟨suf, h⟩
      | cons d ds =>
        rcases List.cons_eq_cons.mp h with ⟨rfl, h2⟩
        exact Or.inr ⟨ds, suf, h2⟩

theorem containsSeq_of_seqContains (p q t : List Char)
    (hpq : SeqContains p q) (hqt : containsSeq q t = true) :
    containsSeq p t = true := by
  rcases hpq with ⟨a, b, rfl⟩
  rcases (containsSeq_iff _ _).mp hqt with ⟨pre, suf, h⟩
  refine (containsSeq_iff _ _).mpr ⟨pre ++ a, b ++ suf, ?_⟩
  simpa [List.append_assoc] using h

theorem seqContains_map (f : Char → Char) (p q : List Char)
    (h : SeqContains p q) : SeqContains (p.map f) (q.map f) := by
  rcases h with ⟨pre, suf, rfl⟩
  exact ⟨pre.map f, suf.map f, by simp⟩

theorem containsSeq_nil (t : List Char) : containsSeq [] t = true := by
  cases t <;> simp [containsSeq, startsSeq]

theorem jsOr_eq_of_ne (v : Option String) (d : String)
    (h : jsOr v "" ≠ "") : ∃ u, v = some u ∧ u ≠ "" ∧ jsOr v d = u := by
  cases v with
  | none => simp [jsOr] at h
  | some s =>
    by_cases hs : s = ""
    · simp [jsOr, hs] at h
    · exact ⟨s, rfl, hs, by simp [jsOr, hs]⟩

theorem jsOr_ne_of_default (v : Option String) (d : String) (hd : d ≠ "") :
    jsOr v d ≠ "" := by
  cases v with
  | none => simpa [jsOr] using hd
  | some s =>
    by_cases hs : s = "" <;> simp [jsOr, hs, hd]

theorem mem_mapIdxFrom_iff (g : Nat → Row → Feed) (k : Nat) (l : List Row)
    (f : Feed) : f ∈ mapIdxFrom g k l ↔ ∃ i r, l[i]? = some r ∧ f = g (k + i) r := by
  induction l generalizing k with
  | nil => simp [mapIdxFrom]
  | cons a as ih =>
    simp only [mapIdxFrom, List.mem_cons, ih]
    constructor
    · rintro (rfl | ⟨i, r, hi, rfl⟩)
      · exact ⟨0, a, by simp, by simp⟩
      · exact ⟨i + 1, r, by simpa using hi, by rw [Nat.add_comm i 1, ← Nat.add_assoc]⟩
    · rintro ⟨i, r, hi, rfl⟩
      cases i with
      | zero =>
        simp only [List.getElem?_cons_zero, Option.some_inj] at hi
        subst hi
        exact Or.inl (by simp)
      | succ j =>
        refine Or.inr ⟨j, r, by simpa using hi, ?_⟩
        rw [Nat.add_comm j 1, ← Nat.add_assoc]

theorem mem_sanitized_title_ne (pf : String → Option String) (base : String)
    (rows : List Row) (f : Feed) (hf : f ∈ sanitizedFeeds pf base rows) :
    f.feed_title ≠ "" := by
  rcases List.mem_filter.mp hf with ⟨hmem, _⟩
  rcases (mem_mapIdxFrom_iff _ _ _ _).mp hmem with ⟨i, r, _, rfl⟩
  exact jsOr_ne_of_default r.feed_title "Untitled Feed" (by decide)

theorem mem_sanitized_url_ne (pf : String → Option String) (base : String)
    (rows : List Row) (f : Feed) (hf : f ∈ sanitizedFeeds pf base rows) :
    f.feed_url ≠ "" := by
  rcases List.mem_filter.mp hf with ⟨_, hp⟩
  exact bne_iff_ne.mp hp

/-! ### Claim theorems -/

/-- C1: every `Feed` published into the collection by the parse-complete
handler has a non-empty `feed_url`; rows whose `feed_url` is missing or
empty are excluded by the trailing filter. -/
theorem c1_kept_entries_have_feed_url (pf : String → Option String) (base : String)
    (rows : List Row) (f : Feed) (hf : f ∈ sanitizedFeeds pf base rows) :
    f.feed_url ≠ "" :=
  mem_sanitized_url_ne pf base rows f hf

/-- C1 witness: the single row with a feed URL survives sanitization and
its `feed_url` is non-empty. -/
theorem c1_witness :
    (sanitizeRow (fun _ => none) "/" 0 ⟨some "T", some "http://a.com/rss", none⟩).feed_url ≠ "" :=
  c1_kept_entries_have_feed_url (fun _ => none) "/"
    [⟨some "T", some "http://a.com/rss", none⟩] _ (by decide)

/-- C9: every entry kept in the collection has `id` equal to its
`feed_url`: a row that takes the positional fallback id has empty
`feed_url` and is removed by the filter, so the fallback is unreachable
for published entries. -/
theorem c9_kept_entries_id_eq_feed_url (pf : String → Option String) (base : String)
    (rows : List Row) (f : Feed) (hf : f ∈ sanitizedFeeds pf base rows) :
    f.id = f.feed_url := by
  rcases List.mem_filter.mp hf with ⟨hmem, hp⟩
  rcases (mem_mapIdxFrom_iff _ _ _ _).mp hmem with ⟨i, r, _, rfl⟩
  have hurl : jsOr r.feed_url "" ≠ "" := bne_iff_ne.mp hp
  rcases jsOr_eq_of_ne r.feed_url ("feed-" ++ toString (0 + i)) hurl with ⟨u, hv, hu, hid⟩
  show jsOr r.feed_url ("feed-" ++ toString (0 + i)) = jsOr r.feed_url ""
  rw [hid, hv, jsOr, if_neg hu]

/-- C9 witness: on a concrete surviving row, `id` equals `feed_url`. -/
theorem c9_witness :
    (sanitizeRow (fun _ => none) "/" 0 ⟨some "T", some "http://a.com/rss", none⟩).id =
    (sanitizeRow (fun _ => none) "/" 0 ⟨some "T", some "http://a.com/rss", none⟩).feed_url :=
  c9_kept_entries_id_eq_feed_url (fun _ => none) "/"
    [⟨some "T", some "http://a.com/rss", none⟩] _ (by decide)

/-- C5: a CSV row whose `feed_title` is missing or empty but whose
`feed_url` is present and non-empty is mapped to an entry titled
"Untitled Feed", and that entry is kept in the collection. -/
theorem c5_untitled_placeholder (pf : String → Option String) (base : String)
    (rows : List Row) (i : Nat) (r : Row) (u : String)
    (hi : rows[i]? = some r)
    (htitle : r.feed_title = none ∨ r.feed_title = some "")
    (hurl : r.feed_url = some u) (hu : u ≠ "") :
    (sanitizeRow pf base i r).feed_title = "Untitled Feed" ∧
    sanitizeRow pf base i r ∈ sanitizedFeeds pf base rows := by
  constructor
  · show jsOr r.feed_title "Untitled Feed" = "Untitled Feed"
    rcases htitle with h | h <;> simp [h, jsOr]
  · refine List.mem_filter.mpr ⟨?_, ?_⟩
    · exact (mem_mapIdxFrom_iff _ _ _ _).mpr ⟨i, r, hi, by rw [Nat.zero_add]⟩
    · show (jsOr r.feed_url "" != "") = true
      rw [hurl, jsOr, if_neg hu]
      exact bne_iff_ne.mpr hu

/-- C5 witness: a concrete row with no title and a non-empty URL yields
the placeholder title and stays in the collection. -/
theorem c5_witness :
    (sanitizeRow (fun _ => none) "/" 0 ⟨none, some "http://a.com/rss", none⟩).feed_title =
      "Untitled Feed" ∧
    sanitizeRow (fun _ => none) "/" 0 ⟨none, some "http://a.com/rss", none⟩ ∈
      sanitizedFeeds (fun _ => none) "/" [⟨none, some "http://a.com/rss", none⟩] :=
  c5_untitled_placeholder (fun _ => none) "/"
    [⟨none, some "http://a.com/rss", none⟩] 0 _ "http://a.com/rss"
    (by decide) (Or.inl rfl) rfl (by decide)

/-- C10: for every loaded list and every search string, the filtered
result is an order-preserving subsequence of the loaded list (so it has
no duplicates absent from the input and preserves relative order), and
no entry occurs more often in the output than in the input. -/
theorem c10_filter_sublist (feeds : List Feed) (s : String) :
    List.Sublist (filteredFeeds feeds s) feeds ∧
    ∀ f, (filteredFeeds feeds s).count f ≤ feeds.count f :=
  ⟨List.filter_sublist feeds, fun f => (List.filter_sublist feeds).count_le f⟩

theorem jsLowerAux_of_no_sigma (l : List Char) :
    ∀ prevRev, Char.ofNat 931 ∉ l → jsLowerAux prevRev l = l.map simpleLower := by
  induction l with
  | nil =>
    intro _ _
    rfl
  | cons c cs ih =>
    intro prevRev h
    have hc : (c == Char.ofNat 931) = false :=
      beq_eq_false_iff_ne.mpr (fun hcc => h (hcc ▸ List.mem_cons_self c cs))
    have hcs : Char.ofNat 931 ∉ cs := fun hm => h (List.mem_cons_of_mem c hm)
    simp [jsLowerAux, hc, ih (c :: prevRev) hcs]

/-- C3 counterexample: monotonicity fails as stated, because lowering is
context-sensitive at the capital sigma.  "ΑΣ" occurs in "ΑΣΤ", yet the
feed titled "ΧΑΣΤΟ" is returned for the enlarged search "ΑΣΤ" (lowered
"αστ" occurs in "χαστο") and not for "ΑΣ" (its sigma is final, so it
lowers to "ας", which does not occur in "χαστο"). -/
theorem c3_counterexample :
    SeqContains ("ΑΣ").data ("ΑΣΤ").data ∧
    (⟨"x", "ΧΑΣΤΟ", "u", "", ""⟩ : Feed) ∈
      filteredFeeds [⟨"x", "ΧΑΣΤΟ", "u", "", ""⟩] "ΑΣΤ" ∧
    (⟨"x", "ΧΑΣΤΟ", "u", "", ""⟩ : Feed) ∉
      filteredFeeds [⟨"x", "ΧΑΣΤΟ", "u", "", ""⟩] "ΑΣ" :=
  ⟨⟨[], ['Τ'], rfl⟩, by decide, by decide⟩

/-- C3 (amended): filtering is monotonic in the search string for search
strings free of the capital sigma, the one character whose lowercasing
is context-sensitive (Final_Sigma): when `s` occurs as a substring of
the enlarged search string `t` and `t` contains no Σ, every entry
returned for `t` is also returned for `s`. -/
theorem c3_filter_monotone_sigma_free (feeds : List Feed) (s t : String) (f : Feed)
    (hsig : Char.ofNat 931 ∉ t.data)
    (hst : SeqContains s.data t.data) (hf : f ∈ filteredFeeds feeds t) :
    f ∈ filteredFeeds feeds s := by
  rcases List.mem_filter.mp hf with ⟨hmem, hp⟩
  refine List.mem_filter.mpr ⟨hmem, ?_⟩
  simp only [feedMatches, Bool.and_eq_true] at hp ⊢
  rcases hp with ⟨hne, hinc⟩
  refine ⟨hne, ?_⟩
  rcases hst with ⟨pre, suf, hpre⟩
  have hssig : Char.ofNat 931 ∉ s.data := by
    intro hm
    apply hsig
    rw [← hpre]
    simp [hm]
  have hlow : SeqContains (jsToLower s).data (jsToLower t).data := by
    rw [show (jsToLower s).data = s.data.map simpleLower from
          jsLowerAux_of_no_sigma s.data [] hssig,
        show (jsToLower t).data = t.data.map simpleLower from
          jsLowerAux_of_no_sigma t.data [] hsig]
    exact seqContains_map simpleLower s.data t.data ⟨pre, suf, hpre⟩
  exact containsSeq_of_seqContains _ _ _ hlow hinc

/-- C3 witness: enlarging the sigma-free search string "b" to "ab" keeps
the match for a title containing "ab". -/
theorem c3_witness :
    ⟨"x", "Cab", "u", "", ""⟩ ∈
      filteredFeeds [⟨"x", "Cab", "u", "", ""⟩] "b" :=
  c3_filter_monotone_sigma_free [⟨"x", "Cab", "u", "", ""⟩] "b" "ab"
    ⟨"x", "Cab", "u", "", ""⟩ (by decide) ⟨['a'], [], rfl⟩ (by decide)

theorem jsIncludes_empty (s : String) : jsIncludes s "" = true :=
  containsSeq_nil s.data

theorem jsToLower_empty : jsToLower "" = "" := rfl

/-- C2: on every loaded list (the output of the sanitization pipeline),
the filter returns exactly the entries whose title contains the search
string case-insensitively — the extra title-truthiness conjunct in the
code is vacuous there — and on the two concrete rows titled "ACME News"
and "Other", searching "acme" yields exactly the first entry. -/
theorem c2_filter_is_case_insensitive_containment :
    (∀ pf base rows s, filteredFeeds (sanitizedFeeds pf base rows) s =
      (sanitizedFeeds pf base rows).filter (specMatches s)) ∧
    (∀ pf base, filteredFeeds (sanitizedFeeds pf base
        [⟨some "ACME News", some "http://a.com/rss", none⟩,
         ⟨some "Other", some "http://b.com/rss", none⟩]) "acme" =
      [sanitizeRow pf base 0 ⟨some "ACME News", some "http://a.com/rss", none⟩]) := by
  constructor
  · intro pf base rows s
    show List.filter _ _ = List.filter _ _
    apply List.filter_congr
    intro f hf
    have ht := mem_sanitized_title_ne pf base rows f hf
    simp [feedMatches, specMatches, bne_iff_ne.mpr ht]
  · intro pf base
    rfl

/-- C4: sanitization never produces an empty `feed_title` (the default
placeholder is non-empty), and therefore filtering a loaded list with
the empty search string returns the full loaded list in original
order. -/
theorem c4_empty_search_returns_all :
    (∀ pf base rows f, f ∈ sanitizedFeeds pf base rows → f.feed_title ≠ "") ∧
    (∀ pf base rows,
      filteredFeeds (sanitizedFeeds pf base rows) "" = sanitizedFeeds pf base rows) := by
  refine ⟨mem_sanitized_title_ne, ?_⟩
  intro pf base rows
  rw [filteredFeeds, List.filter_eq_self]
  intro f hf
  have ht := mem_sanitized_title_ne pf base rows f hf
  simp [feedMatches, jsToLower_empty, jsIncludes_empty, bne_iff_ne.mpr ht]

/-- C4 witness: on a one-row CSV the kept entry has a non-empty title
and the empty search returns the whole list. -/
theorem c4_witness :
    (sanitizeRow (fun _ => none) "/" 0 ⟨none, some "u", none⟩).feed_title ≠ "" ∧
    filteredFeeds (sanitizedFeeds (fun _ => none) "/" [⟨none, some "u", none⟩]) "" =
      sanitizedFeeds (fun _ => none) "/" [⟨none, some "u", none⟩] :=
  ⟨c4_empty_search_returns_all.1 (fun _ => none) "/" [⟨none, some "u", none⟩] _ (by decide),
   c4_empty_search_returns_all.2 (fun _ => none) "/" [⟨none, some "u", none⟩]⟩

/-- C6: for every feed URL string, `getInoreaderUrl` returns the fixed
template with the percent-encoding of the URL appended and nothing else:
the output's characters are exactly the template's characters followed by
the encoding's characters. -/
theorem c6_inoreader_url (u : String) :
    getInoreaderUrl u = "https://www.inoreader.com/search/feeds/" ++ encodeURIComponent u ∧
    (getInoreaderUrl u).data =
      ("https://www.inoreader.com/search/feeds/").data ++ (encodeURIComponent u).data :=
  ⟨rfl, String.data_append _ _⟩

/-- C7: a rejected fetch, a non-ok HTTP response, and a CSV parse
failure each leave the feeds collection empty (never partially
populated), clear the loading flag, and publish a human-readable error
message; `loadFeeds` runs once, so there is no retry. -/
theorem c7_failures_publish_error_and_no_feeds (pf : String → Option String)
    (base : String) (parseCsv : String → ParseResult) (msg : String)
    (status : Nat) (body : String) :
    ((loadFeeds pf base (.networkError msg) parseCsv).feeds = [] ∧
     (loadFeeds pf base (.networkError msg) parseCsv).loading = false ∧
     (loadFeeds pf base (.networkError msg) parseCsv).error =
       some ("Error loading or processing feeds: " ++ msg ++
         ". Ensure 'feeds_deduped.csv' is accessible.")) ∧
    ((loadFeeds pf base (.response false status body) parseCsv).feeds = [] ∧
     (loadFeeds pf base (.response false status body) parseCsv).loading = false ∧
     (loadFeeds pf base (.response false status body) parseCsv).error =
       some ("Error loading or processing feeds: HTTP error! status: " ++
         toString status ++ ". Ensure 'feeds_deduped.csv' is accessible.")) ∧
    (∀ pmsg, parseCsv body = .failure pmsg →
      (loadFeeds pf base (.response true status body) parseCsv).feeds = [] ∧
      (loadFeeds pf base (.response true status body) parseCsv).loading = false ∧
      (loadFeeds pf base (.response true status body) parseCsv).error =
        some ("Error parsing CSV: " ++ pmsg)) := by
  refine ⟨⟨rfl, rfl, rfl⟩, ⟨rfl, rfl, rfl⟩, ?_⟩
  intro pmsg h
  refine ⟨?_, ?_, ?_⟩ <;> simp [loadFeeds, h, initialState]

/-- C7 witness: a concrete parse failure on an ok response publishes the
parse error and an empty collection. -/
theorem c7_witness :
    (loadFeeds (fun _ => none) "/" (.response true 200 "oops")
      (fun _ => .failure "bad")).feeds = [] ∧
    (loadFeeds (fun _ => none) "/" (.response true 200 "oops")
      (fun _ => .failure "bad")).loading = false ∧
    (loadFeeds (fun _ => none) "/" (.response true 200 "oops")
      (fun _ => .failure "bad")).error = some ("Error parsing CSV: " ++ "bad") :=
  (c7_failures_publish_error_and_no_feeds (fun _ => none) "/"
    (fun _ => .failure "bad") "m" 200 "oops").2.2 "bad" rfl

/-- C8: `getFaviconUrl` is total (it returns a string for every input)
and: an empty website URL yields the default placeholder path; when URL
parsing of the (possibly https-prefixed) website URL succeeds it yields
the favicon-service URL for the parsed hostname; when parsing throws it
yields the default placeholder path. -/
theorem c8_favicon_cases (pf : String → Option String) (base w : String) :
    (w = "" → getFaviconUrl pf base w = base ++ "default-favicon.png") ∧
    (∀ h, w ≠ "" → pf (urlCandidate w) = some h →
      getFaviconUrl pf base w = "https://www.google.com/s2/favicons?domain=" ++ h) ∧
    (w ≠ "" → pf (urlCandidate w) = none →
      getFaviconUrl pf base w = base ++ "default-favicon.png") := by
  refine ⟨?_, ?_, ?_⟩
  · intro hw
    simp [getFaviconUrl, hw]
  · intro h hw hp
    simp [getFaviconUrl, hw, hp]
  · intro hw hp
    simp [getFaviconUrl, hw, hp]

/-- C8 witness: a hostname parser that succeeds on "a.com" produces the
favicon-service URL. -/
theorem c8_witness :
    getFaviconUrl (fun _ => some "a.com") "/" "a.com" =
      "https://www.google.com/s2/favicons?domain=" ++ "a.com" :=
  (c8_favicon_cases (fun _ => some "a.com") "/" "a.com").2.1 "a.com" (by decide) rfl

end Feeds
